import Mathlib

set_option maxHeartbeats 1000000

/-!
# Verification of `Force_drag_nrlmsise00.cpp`

Shallow embedding of the drag-force / NRLMSISE-00 input-resolution code
(`src/Force_drag_nrlmsise00.cpp`) and proofs about it.  Strings are modelled
as `List Char`, C++ `int` as `ℤ`, and `double` values that carry exact
decimal content as `ℚ`.  Operations that throw (`std::stoi`,
`std::string::substr` past the end, `abort()`) are modelled with `Option` /
`Except`.
-/

/-- C `isspace` on ASCII input: space (32) or the control range 9–13.
Used by stream extraction and by `std::stoi` / `std::stod` prefix skipping. -/
def isSpace (c : Char) : Bool := c.toNat = 32 || (9 ≤ c.toNat && c.toNat ≤ 13)

/-- C `isdigit` on ASCII input: code points 48–57. -/
def isDigitCh (c : Char) : Bool := 48 ≤ c.toNat && c.toNat ≤ 57

/-- Numeric value of an ASCII digit character. -/
def charVal (c : Char) : ℕ := c.toNat - 48

/-- Value of a string of ASCII digits read most-significant first. -/
def digitsVal (l : List Char) : ℕ := l.foldl (fun a c => 10 * a + charVal c) 0

/-- Digit-run part of `std::stoi`: longest digit prefix, failing (exception)
when it is empty. -/
def stoiDigits (l : List Char) : Option ℕ :=
  if l.takeWhile isDigitCh = [] then none else some (digitsVal (l.takeWhile isDigitCh))

/-- Signed integer parse of `std::stoi` after whitespace skipping: optional
sign, then a nonempty digit run; trailing characters are ignored. -/
def stoiSigned (l : List Char) : Option ℤ :=
  if l.take 1 = ['-'] then (stoiDigits (l.drop 1)).map (fun n : ℕ => -(n : ℤ))
  else if l.take 1 = ['+'] then (stoiDigits (l.drop 1)).map (fun n : ℕ => (n : ℤ))
  else (stoiDigits l).map (fun n : ℕ => (n : ℤ))

/-- `std::stoi`: skip leading whitespace, then parse an optionally signed
digit run; `none` models the `std::invalid_argument` exception. -/
def stoi (l : List Char) : Option ℤ := stoiSigned (l.dropWhile isSpace)

/-- ASCII character of a decimal digit. -/
def digitCharN (d : ℕ) : Char :=
  if d = 0 then '0' else if d = 1 then '1' else if d = 2 then '2' else if d = 3 then '3'
  else if d = 4 then '4' else if d = 5 then '5' else if d = 6 then '6' else if d = 7 then '7'
  else if d = 8 then '8' else '9'

/-- Fuelled most-significant-first decimal rendering of a natural number. -/
def natToCharsAux : ℕ → ℕ → List Char
  | 0, _ => []
  | fuel+1, n => if n = 0 then [] else natToCharsAux fuel (n / 10) ++ [digitCharN (n % 10)]

/-- Decimal rendering of a natural number (`std::to_string` on naturals). -/
def natToChars (n : ℕ) : List Char :=
  if n = 0 then ['0'] else natToCharsAux (n + 1) n

/-- `std::to_string` on a C++ `int`. -/
def intToChars (i : ℤ) : List Char :=
  if i < 0 then '-' :: natToChars i.natAbs else natToChars i.natAbs

/-- Exponent value consumed by `strtod` after an `e`/`E` marker: an optional
sign and digit run; an invalid exponent field contributes the factor
`10 ^ 0 = 1`, matching `strtod`, which then simply does not consume it. -/
def expVal (l : List Char) : ℤ := (stoiSigned l).getD 0

/-- Unsigned decimal mantissa parse of `strtod`: a digit run, an optional
point followed by a digit run, requiring at least one digit overall.
Returns the value together with the unconsumed remainder of the input. -/
def parseMantissaPos (l : List Char) : Option (ℚ × List Char) :=
  if (l.dropWhile isDigitCh).take 1 = ['.'] then
    (if l.takeWhile isDigitCh = [] ∧ ((l.dropWhile isDigitCh).drop 1).takeWhile isDigitCh = [] then
      none
    else
      some ((digitsVal (l.takeWhile isDigitCh) : ℚ)
          + (digitsVal (((l.dropWhile isDigitCh).drop 1).takeWhile isDigitCh) : ℚ)
            / ((10 ^ (((l.dropWhile isDigitCh).drop 1).takeWhile isDigitCh).length : ℕ) : ℚ),
        ((l.dropWhile isDigitCh).drop 1).dropWhile isDigitCh))
  else
    (if l.takeWhile isDigitCh = [] then none
     else some ((digitsVal (l.takeWhile isDigitCh) : ℚ), l.dropWhile isDigitCh))

/-- Signed decimal mantissa parse of `strtod` (sign handling around
`parseMantissaPos`). -/
def parseMantissa (l : List Char) : Option (ℚ × List Char) :=
  if l.take 1 = ['-'] then (parseMantissaPos (l.drop 1)).map (fun p => (-p.1, p.2))
  else if l.take 1 = ['+'] then parseMantissaPos (l.drop 1)
  else parseMantissaPos l

/-- `std::stod` on decimal input: skip whitespace, parse a signed decimal
mantissa, then scale by `10 ^ e` when an `e`/`E` exponent field follows. -/
def stod (l : List Char) : Option ℚ :=
  match parseMantissa (l.dropWhile isSpace) with
  | none => none
  | some (q, rest) =>
    if rest.take 1 = ['e'] ∨ rest.take 1 = ['E'] then
      some (q * (10 : ℚ) ^ expVal (rest.drop 1))
    else some q

/-- `std::string::substr(pos, count)`: `none` models the `std::out_of_range`
exception thrown when `pos` exceeds the length. -/
def substrOpt (l : List Char) (pos count : ℕ) : Option (List Char) :=
  if pos ≤ l.length then some ((l.drop pos).take count) else none

/-- `find_first_of` for a single character, with `none` for `npos`. -/
def findIdxOpt (p : Char → Bool) (l : List Char) : Option ℕ :=
  if l.any p then some (l.findIdx p) else none

/-- `find_last_of` for a single character, with `none` for `npos`. -/
def findLastIdxOpt (p : Char → Bool) (l : List Char) : Option ℕ :=
  if l.any p then some (l.length - 1 - l.reverse.findIdx p) else none

/-- Fuelled whitespace tokenizer: the words extracted by repeated
`stream >> word` operations. -/
def tokenizeAux : ℕ → List Char → List (List Char)
  | 0, _ => []
  | fuel+1, l =>
    if (l.dropWhile isSpace).isEmpty then []
    else (l.dropWhile isSpace).takeWhile (fun c => !isSpace c)
      :: tokenizeAux fuel ((l.dropWhile isSpace).dropWhile (fun c => !isSpace c))

/-- Whitespace tokenizer (each token consumes at least one character, so
`length + 1` fuel always suffices). -/
def tokenize (l : List Char) : List (List Char) := tokenizeAux (l.length + 1) l

/-! ## `leap_year_doy` (source lines 159–235) -/

/-- The `cal_days` map of cumulative days at the start of each month in a
non-leap year; months 1–11 only, exactly as in the source. -/
def cal_days (m : ℤ) : Option ℤ :=
  if m = 1 then some 0 else if m = 2 then some 31 else if m = 3 then some 59
  else if m = 4 then some 90 else if m = 5 then some 120 else if m = 6 then some 151
  else if m = 7 then some 181 else if m = 8 then some 212 else if m = 9 then some 243
  else if m = 10 then some 273 else if m = 11 then some 304 else none

/-- The `leap_days` map of cumulative days at the start of each month in a
leap year; months 1–11 only, exactly as in the source. -/
def leap_days (m : ℤ) : Option ℤ :=
  if m = 1 then some 0 else if m = 2 then some 31 else if m = 3 then some 60
  else if m = 4 then some 91 else if m = 5 then some 121 else if m = 6 then some 152
  else if m = 7 then some 182 else if m = 8 then some 213 else if m = 9 then some 244
  else if m = 10 then some 274 else if m = 11 then some 305 else none

/-- The fixed `leap_yrs` list of the source, including the 2996 entry. -/
def leap_yrs : List ℤ := [1992, 2996, 2000, 2004, 2008, 2012, 2016, 2020]

/-- `leap_year_doy(int_year, int_month, int_day)`: day of year, previous day
of year and F10.7 lookup year.  `Except.error` models the fatal
`abort()` path together with the message printed before it.  The source
funnels the computed integers through `std::to_string`; the values carried
here are those integers (the stringification is one-to-one). -/
def leap_year_doy (year month day : ℤ) : Except String (ℤ × ℤ × ℤ) :=
  if year ∉ leap_yrs then
    match cal_days month with
    | some c =>
      if c + day > 1 then .ok (c + day, c + day - 1, year)
      else .ok (c + day, 365, year - 1)
    | none => .error "Month not found in cal_days."
  else
    match leap_days month with
    | some c =>
      if c + day > 1 then .ok (c + day, c + day - 1, year)
      else .ok (c + day, 366, year - 1)
    | none => .error "Month not found in leap_days."

/-! ## `msis_time_stamp` (source lines 82–157) -/

/-- Output of `msis_time_stamp`, as the integers the source computes (it
returns their `std::to_string` renderings). -/
structure MsisStamp where
  day_of_year : ℤ
  previous_day : ℤ
  f10_year : ℤ
  second : ℤ
  day : ℤ
  month : ℤ
  year : ℤ
deriving DecidableEq

/-- `msis_time_stamp(epoch)`.  Token counting and the 3-token / 4-token
split follow the source; `none` models any uncaught exception
(`std::stoi` on a non-numeric field, `substr` past the end) and the
`abort()` inside `leap_year_doy`.  A first token without a `/` in the
3-token branch would make the source index with `npos`; that path is
modelled as a failure. -/
def msis_time_stamp (epoch : List Char) : Option MsisStamp := do
  let toks := tokenize epoch
  let (mod_str1, mod_str2, mod_str3) ←
    if toks.length = 3 then do
      let break_str := toks.getD 0 []
      let slash1 ← findIdxOpt (fun c => c == '/') break_str
      let m1 := break_str.take slash1
      let m2 ← substrOpt break_str (slash1 + 1) (break_str.length - m1.length)
      pure (m1, m2, toks.getD 1 [])
    else
      pure (toks.getD 0 [], toks.getD 1 [], toks.getD 2 [])
  if mod_str2.length < 5 then none
  else do
    let model_year ← substrOpt mod_str2 (mod_str2.length - 5) 4
    let int_year ← stoi model_year
    let model_month := if mod_str2.length = 7 then mod_str2.take 1 else mod_str2.take 2
    let int_month ← stoi model_month
    let model_day := if mod_str1.length = 2 then mod_str1.take 1 else mod_str1.take 2
    let int_day ← stoi model_day
    let first ← findIdxOpt (fun c => c == ':') mod_str3
    let last ← findLastIdxOpt (fun c => c == ':') mod_str3
    let model_hour := mod_str3.take first
    let model_minute ← substrOpt mod_str3 (first + 1) (last - first - 1)
    let model_second ← substrOpt mod_str3 (last + 1) 6
    let int_hour ← stoi model_hour
    let int_minute ← stoi model_minute
    let int_s ← stoi model_second
    match leap_year_doy int_year int_month int_day with
    | .error _ => none
    | .ok (doy, prev, f10y) =>
      pure ⟨doy, prev, f10y, int_s + int_minute * 60 + int_hour * 3600,
        int_day, int_month, int_year⟩

/-! ## `msis_f107` (source lines 238–274) -/

/-- State of a `std::stringstream` whose write position stays at the end of
the buffer: the unread content together with the `failbit` and `eofbit`
flags (the source never clears them). -/
structure SStream where
  rest : List Char
  fail : Bool
  eof : Bool
deriving DecidableEq

/-- `stream << text` on an output `stringstream`: the sentry fails (setting
`failbit`) when the stream is not good, otherwise the text is appended. -/
def sinsert (s : SStream) (l : List Char) : SStream :=
  if s.fail || s.eof then { s with fail := true } else { s with rest := s.rest ++ l }

/-- `stream >> word` into a `std::string`: fails (target untouched) when the
stream is not good or only whitespace remains; otherwise skips whitespace
and reads a word, setting `eofbit` when the read stops at the end of the
buffer — exactly the libstdc++/libc++ behaviour. -/
def extractToken (s : SStream) (cur : List Char) : SStream × List Char :=
  if s.fail || s.eof then ({ s with fail := true }, cur)
  else if (s.rest.dropWhile isSpace).isEmpty then (⟨[], true, true⟩, cur)
  else (⟨(s.rest.dropWhile isSpace).dropWhile (fun c => !isSpace c), false,
         ((s.rest.dropWhile isSpace).dropWhile (fun c => !isSpace c)).isEmpty⟩,
        (s.rest.dropWhile isSpace).takeWhile (fun c => !isSpace c))

/-- Variables of `msis_f107` live across loop iterations: the shared
`line_stream` and the five extraction targets. -/
structure F107St where
  stream : SStream
  ig1 : List Char
  ig2 : List Char
  ig3 : List Char
  f107 : List Char
  f107a : List Char
deriving DecidableEq

/-- The five chained `>>` extractions of `msis_f107`. -/
def extract5 (s : SStream) (a1 a2 a3 a4 a5 : List Char) :
    SStream × List Char × List Char × List Char × List Char × List Char :=
  match extractToken s a1 with
  | (s1, b1) =>
    match extractToken s1 a2 with
    | (s2, b2) =>
      match extractToken s2 a3 with
      | (s3, b3) =>
        match extractToken s3 a4 with
        | (s4, b4) =>
          match extractToken s4 a5 with
          | (s5, b5) => (s5, b1, b2, b3, b4, b5)

/-- Search-key construction of `msis_f107`: the year, then 1/2/3 spaces
according to the length of the previous-day text, then the previous day. -/
def f107_search (f10_year prev_day : List Char) : List Char :=
  if prev_day.length = 3 then f10_year ++ ' ' :: prev_day
  else if prev_day.length = 2 then f10_year ++ ' ' :: ' ' :: prev_day
  else f10_year ++ ' ' :: ' ' :: ' ' :: prev_day

/-- One iteration of the `msis_f107` read loop: on a line containing the key
as a substring, push the line into the shared stream and run the five
extractions. -/
def f107_step (key : List Char) (st : F107St) (line : List Char) : F107St :=
  if key <:+: line then
    match extract5 (sinsert st.stream line) st.ig1 st.ig2 st.ig3 st.f107 st.f107a with
    | (s5, b1, b2, b3, b4, b5) => ⟨s5, b1, b2, b3, b4, b5⟩
  else st

/-- `msis_f107(prev_day, f10_year)` over the lines of the F10.7 record file:
returns the final `F107_value` and `F107A_value`. -/
def msis_f107 (lines : List (List Char)) (prev_day f10_year : List Char) :
    List Char × List Char :=
  ((lines.foldl (f107_step (f107_search f10_year prev_day))
      ⟨⟨[], false, false⟩, [], [], [], [], []⟩).f107,
   (lines.foldl (f107_step (f107_search f10_year prev_day))
      ⟨⟨[], false, false⟩, [], [], [], [], []⟩).f107a)

/-! ## `ap_value` (source lines 277–338) -/

/-- Search-key construction of `ap_value`: last two digits of the year text,
then the month and day texts zero-padded to two characters. -/
def ap_search_key (model_year model_month model_day : List Char) : Option (List Char) :=
  if 2 ≤ model_year.length then
    some ((model_year.drop 2).take 2
      ++ (if model_month.length = 1 then '0' :: model_month else model_month)
      ++ (if model_day.length = 1 then '0' :: model_day else model_day))
  else none

/-- One iteration of the `ap_value` read loop: on a line that contains the
key and whose first six characters equal the key, overwrite
`line_stream1` with characters [31,55) of the line; `none` models the
`substr(31,24)` exception on a short matching line. -/
def ap_scan_step (key : List Char) (acc : Option (List Char)) (line : List Char) :
    Option (List Char) :=
  match acc with
  | none => none
  | some cur =>
    if key <:+: line ∧ line.take 6 = key then
      if 31 ≤ line.length then some ((line.drop 31).take 24) else none
    else some cur

/-- Line scan of `ap_value` over the record file. -/
def ap_scan (key : List Char) (lines : List (List Char)) : Option (List Char) :=
  lines.foldl (ap_scan_step key) (some [])

/-- C `round` of a rational: half-way cases away from zero. -/
def roundHalfAwayFromZero (q : ℚ) : ℤ := if q < 0 then -⌊-q + 1/2⌋ else ⌊q + 1/2⌋

/-- `ap_value(model_year, model_month, model_day)` over the lines of the Ap
record file: eight fixed-width 3-character sub-fields of the selected
line section are parsed with `std::stoi`, averaged over 8 and rounded.
The `float` division by 8 is exact for every sum these fields can
produce, so the rational model is exact. -/
def ap_value (lines : List (List Char)) (model_year model_month model_day : List Char) :
    Option ℤ := do
  let key ← ap_search_key model_year model_month model_day
  let line_stream1 ← ap_scan key lines
  let aps ← (List.range 8).mapM (fun i => substrOpt line_stream1 (3 * i) 3)
  let ints ← aps.mapM stoi
  pure (roundHalfAwayFromZero (((ints.foldl (fun a b => a + b) 0 : ℤ) : ℚ) / 8))

/-! ## `msis_lla_coordinates` (source lines 54–79) -/

/-- Truncation stage of `msis_lla_coordinates`, acting on the already
formatted (fixed, precision 15) coordinate tokens: latitude and longitude
are cut to 8 characters when longer than 8, the altitude when longer
than 9.  Returns `(altitude, latitude, longitude)` as the source does. -/
def msis_lla_coordinates (lat lon alt : List Char) :
    List Char × List Char × List Char :=
  ((if alt.length > 9 then alt.take 8 else alt),
   (if lat.length > 8 then lat.take 8 else lat),
   (if lon.length > 8 then lon.take 8 else lon))

/-- Shape of a token produced by C++ `std::fixed` formatting at precision 15
of a `double`: an optional minus sign, a nonempty integer-digit run, a
point and exactly 15 fraction digits — or one of the non-finite
renderings `inf` / `-inf` / `nan` / `-nan`. -/
def FixedFmt15 (s : List Char) : Prop :=
  (∃ sgn intd frac : List Char,
      (sgn = [] ∨ sgn = ['-']) ∧ intd ≠ [] ∧ frac.length = 15 ∧
      s = sgn ++ intd ++ '.' :: frac)
  ∨ s = "inf".toList ∨ s = "-inf".toList ∨ s = "nan".toList ∨ s = "-nan".toList

/-! ## `retrieve_mass_density` (source lines 341–384) -/

/-- `chdir` as a transition on the working-directory state. -/
def chdir (target _cwd : List Char) : List Char := target

/-- Installation directory of the external model, hard-coded in the source. -/
def msis_model_dir : List Char :=
  "/Users/johnkeeling/Desktop/Astrophysics_MSc/PHAS0062_research_project/hawke_files/MSIS-model_c".toList

/-- Directory the source switches to after the model call, hard-coded. -/
def odl_bin_dir : List Char :=
  "/Users/johnkeeling/Desktop/Astrophysics_MSc/PHAS0062_research_project/hawke_files/odl20lite/bin".toList

/-- Working-directory effect of `retrieve_mass_density`: `chdir` into the
model directory, run the command, then `chdir` into the hard-coded
`odl20lite/bin` directory. -/
def retrieve_mass_density_cwd (cwd0 : List Char) : List Char :=
  chdir odl_bin_dir (chdir msis_model_dir cwd0)

/-- Output-normalization stage of `retrieve_mass_density` on the raw text
captured from the model.  The source compares against `"inf"`, then
checks the character at index 8; `substr(8,1)` on a shorter string
throws (`none`).  Otherwise it splits at the first `e`, adds 3 to the
integer value of the following up-to-3 characters and re-parses; the
`find_first_of` cannot fail on this path because index 8 holds an `e`. -/
def retrieve_mass_density_normalize (str_res : List Char) : Option ℚ :=
  if str_res = "inf".toList then some (1 / 10 ^ 13)
  else if str_res.length < 8 then none
  else if (str_res.drop 8).take 1 ≠ ['e'] then some (1 / 10 ^ 13)
  else
    match stoi ((str_res.drop (str_res.findIdx (fun c => c == 'e') + 1)).take 3) with
    | none => none
    | some k =>
      stod (str_res.take (str_res.findIdx (fun c => c == 'e')) ++ 'E' :: intToChars (k + 3))

/-! ## `compute_acceleration` (source lines 18–34) -/

/-- The fields of the resident state that `compute_acceleration` reads or
writes, with the stored constant `minus500C_dAm` supplied separately. -/
structure DragState where
  geodetic_alt : ℚ
  ecef_v : ℚ
  ecef_rso_vel : ℚ
  errors : List (List Char)
  atmos_density : ℚ
  total_a_ecef : ℚ
deriving DecidableEq

/-- Error text pushed for a low altitude; `altText` stands for the
precision-16 rendering of the altitude. -/
def low_alt_error (altText : List Char) : List Char :=
  "Force_drag: Altitude too low, ".toList ++ altText ++ " km.".toList

/-- `compute_acceleration`: below 100 km an error string is appended (no
early return), then the density `rho` delivered by the model chain is
stored and the drag acceleration is accumulated.  Returns the updated
state together with the `a_ecef` member. -/
def compute_acceleration (minus500C_dAm : ℚ) (altText : List Char) (rho : ℚ)
    (st : DragState) : DragState × ℚ :=
  ({ st with
      errors := if st.geodetic_alt < 100 then st.errors ++ [low_alt_error altText] else st.errors,
      atmos_density := rho,
      total_a_ecef := st.total_a_ecef + minus500C_dAm * rho * st.ecef_v * st.ecef_rso_vel },
   minus500C_dAm * rho * st.ecef_v * st.ecef_rso_vel)

/-! ## General list lemmas -/

theorem takeWhile_append_cons_of {α : Type} (p : α → Bool) (a : List α) (b : α) (t : List α)
    (ha : ∀ c ∈ a, p c = true) (hb : p b = false) : (a ++ b :: t).takeWhile p = a := by
  induction a with
  | nil => simp [List.takeWhile_cons, hb]
  | cons x xs ih =>
    have hx : p x = true := ha x (List.mem_cons_self x xs)
    simp [List.takeWhile_cons, hx, ih (fun c hc => ha c (List.mem_cons_of_mem _ hc))]

theorem dropWhile_append_cons_of {α : Type} (p : α → Bool) (a : List α) (b : α) (t : List α)
    (ha : ∀ c ∈ a, p c = true) (hb : p b = false) : (a ++ b :: t).dropWhile p = b :: t := by
  induction a with
  | nil => simp [List.dropWhile_cons, hb]
  | cons x xs ih =>
    have hx : p x = true := ha x (List.mem_cons_self x xs)
    simp [List.dropWhile_cons, hx, ih (fun c hc => ha c (List.mem_cons_of_mem _ hc))]

theorem takeWhile_all_of {α : Type} (p : α → Bool) (a : List α)
    (ha : ∀ c ∈ a, p c = true) : a.takeWhile p = a := by
  induction a with
  | nil => rfl
  | cons x xs ih =>
    have hx : p x = true := ha x (List.mem_cons_self x xs)
    simp [List.takeWhile_cons, hx, ih (fun c hc => ha c (List.mem_cons_of_mem _ hc))]

theorem dropWhile_all_of {α : Type} (p : α → Bool) (a : List α)
    (ha : ∀ c ∈ a, p c = true) : a.dropWhile p = [] := by
  induction a with
  | nil => rfl
  | cons x xs ih =>
    have hx : p x = true := ha x (List.mem_cons_self x xs)
    simp [List.dropWhile_cons, hx, ih (fun c hc => ha c (List.mem_cons_of_mem _ hc))]

theorem dropWhile_append_all_of {α : Type} (p : α → Bool) (a r : List α)
    (ha : ∀ c ∈ a, p c = true) : (a ++ r).dropWhile p = r.dropWhile p := by
  induction a with
  | nil => rfl
  | cons x xs ih =>
    have hx : p x = true := ha x (List.mem_cons_self x xs)
    simp [List.dropWhile_cons, hx, ih (fun c hc => ha c (List.mem_cons_of_mem _ hc))]

theorem findIdx_append_cons_of {α : Type} (p : α → Bool) (a : List α) (b : α) (t : List α)
    (ha : ∀ c ∈ a, p c = false) (hb : p b = true) : (a ++ b :: t).findIdx p = a.length := by
  induction a with
  | nil => simp [List.findIdx_cons, hb]
  | cons x xs ih =>
    have hx : p x = false := ha x (List.mem_cons_self x xs)
    simp [List.findIdx_cons, hx, ih (fun c hc => ha c (List.mem_cons_of_mem _ hc))]

/-! ## Calendar lookup facts -/

theorem cal_days_outside (m : ℤ) (h : m < 1 ∨ 11 < m) : cal_days m = none := by
  unfold cal_days
  rw [if_neg (by omega : ¬ m = 1), if_neg (by omega : ¬ m = 2), if_neg (by omega : ¬ m = 3),
    if_neg (by omega : ¬ m = 4), if_neg (by omega : ¬ m = 5), if_neg (by omega : ¬ m = 6),
    if_neg (by omega : ¬ m = 7), if_neg (by omega : ¬ m = 8), if_neg (by omega : ¬ m = 9),
    if_neg (by omega : ¬ m = 10), if_neg (by omega : ¬ m = 11)]

theorem leap_days_outside (m : ℤ) (h : m < 1 ∨ 11 < m) : leap_days m = none := by
  unfold leap_days
  rw [if_neg (by omega : ¬ m = 1), if_neg (by omega : ¬ m = 2), if_neg (by omega : ¬ m = 3),
    if_neg (by omega : ¬ m = 4), if_neg (by omega : ¬ m = 5), if_neg (by omega : ¬ m = 6),
    if_neg (by omega : ¬ m = 7), if_neg (by omega : ¬ m = 8), if_neg (by omega : ¬ m = 9),
    if_neg (by omega : ¬ m = 10), if_neg (by omega : ¬ m = 11)]

/-- C2: for months 1–11 the day of year is the cumulative-table entry plus
the day of month, the table being `leap_days` exactly when the year is a
member of the fixed list `leap_yrs` and `cal_days` otherwise; hence for
years outside the list Feb 28 gives 59 and Mar 1 gives 60, and for years
in the list Feb 29 gives 60 and Mar 1 gives 61. -/
theorem leap_year_doy_tables :
    (∀ y m d : ℤ, 1 ≤ m → m ≤ 11 →
      ∃ c p f : ℤ, (if y ∈ leap_yrs then leap_days m else cal_days m) = some c ∧
        leap_year_doy y m d = .ok (c + d, p, f)) ∧
    (∀ y : ℤ, y ∉ leap_yrs →
      (∃ p f : ℤ, leap_year_doy y 2 28 = .ok (59, p, f)) ∧
      (∃ p f : ℤ, leap_year_doy y 3 1 = .ok (60, p, f))) ∧
    (∀ y : ℤ, y ∈ leap_yrs →
      (∃ p f : ℤ, leap_year_doy y 2 29 = .ok (60, p, f)) ∧
      (∃ p f : ℤ, leap_year_doy y 3 1 = .ok (61, p, f))) := by
  refine ⟨?_, ?_, ?_⟩
  · intro y m d h1 h2
    by_cases hy : y ∈ leap_yrs
    · obtain ⟨c, hc⟩ : ∃ c, leap_days m = some c := by
        interval_cases m <;> exact ⟨_, rfl⟩
      by_cases hd : c + d > 1
      · exact ⟨c, c + d - 1, y, by rw [if_pos hy]; exact hc,
          by simp [leap_year_doy, hy, hc, hd]⟩
      · exact ⟨c, 366, y - 1, by rw [if_pos hy]; exact hc,
          by simp [leap_year_doy, hy, hc, hd]⟩
    · obtain ⟨c, hc⟩ : ∃ c, cal_days m = some c := by
        interval_cases m <;> exact ⟨_, rfl⟩
      by_cases hd : c + d > 1
      · exact ⟨c, c + d - 1, y, by rw [if_neg hy]; exact hc,
          by simp [leap_year_doy, hy, hc, hd]⟩
      · exact ⟨c, 365, y - 1, by rw [if_neg hy]; exact hc,
          by simp [leap_year_doy, hy, hc, hd]⟩
  · intro y hy
    constructor
    · exact ⟨58, y, by norm_num [leap_year_doy, hy, cal_days]⟩
    · exact ⟨59, y, by norm_num [leap_year_doy, hy, cal_days]⟩
  · intro y hy
    constructor
    · exact ⟨59, y, by norm_num [leap_year_doy, hy, leap_days]⟩
    · exact ⟨60, y, by norm_num [leap_year_doy, hy, leap_days]⟩

theorem leap_year_doy_tables_witness :
    (∃ c p f : ℤ, (if (1993 : ℤ) ∈ leap_yrs then leap_days 2 else cal_days 2) = some c ∧
      leap_year_doy 1993 2 28 = .ok (c + 28, p, f)) ∧
    (∃ p f : ℤ, leap_year_doy 2020 2 29 = .ok (60, p, f)) :=
  ⟨leap_year_doy_tables.1 1993 2 28 (by norm_num) (by norm_num),
   (leap_year_doy_tables.2.2 2020 (by decide)).1⟩

/-- C3: whenever `leap_year_doy` succeeds, a day of year greater than 1
gives the previous day as its predecessor and the same F10.7 lookup
year; a day of year equal to 1 gives previous day 365 (366 for a year in
the leap list) and the previous year for the F10.7 lookup. -/
theorem leap_year_doy_previous_day_inv :
    ∀ y m d doy p f : ℤ, leap_year_doy y m d = .ok (doy, p, f) →
      (1 < doy → p = doy - 1 ∧ f = y) ∧
      (doy = 1 → p = (if y ∈ leap_yrs then 366 else 365) ∧ f = y - 1) := by
  intro y m d doy p f h
  unfold leap_year_doy at h
  by_cases hy : y ∈ leap_yrs
  · rw [if_neg (not_not_intro hy)] at h
    split at h
    · split at h
      · rename_i hd
        simp only [Except.ok.injEq, Prod.mk.injEq] at h
        obtain ⟨h1, h2, h3⟩ := h
        exact ⟨fun _ => ⟨by omega, h3.symm⟩, fun h1' => (by omega : False).elim⟩
      · rename_i hd
        simp only [Except.ok.injEq, Prod.mk.injEq] at h
        obtain ⟨h1, h2, h3⟩ := h
        exact ⟨fun hlt => (by omega : False).elim,
          fun _ => ⟨by rw [if_pos hy]; omega, by omega⟩⟩
    · exact Except.noConfusion h
  · rw [if_pos hy] at h
    split at h
    · split at h
      · rename_i hd
        simp only [Except.ok.injEq, Prod.mk.injEq] at h
        obtain ⟨h1, h2, h3⟩ := h
        exact ⟨fun _ => ⟨by omega, h3.symm⟩, fun h1' => (by omega : False).elim⟩
      · rename_i hd
        simp only [Except.ok.injEq, Prod.mk.injEq] at h
        obtain ⟨h1, h2, h3⟩ := h
        exact ⟨fun hlt => (by omega : False).elim,
          fun _ => ⟨by rw [if_neg hy]; omega, by omega⟩⟩
    · exact Except.noConfusion h

theorem leap_year_doy_previous_day_inv_witness :
    (1 < (74 : ℤ) → (73 : ℤ) = 74 - 1 ∧ (2021 : ℤ) = 2021) ∧
    ((74 : ℤ) = 1 →
      (73 : ℤ) = (if (2021 : ℤ) ∈ leap_yrs then 366 else 365) ∧ (2021 : ℤ) = 2021 - 1) :=
  leap_year_doy_previous_day_inv 2021 3 15 74 73 2021 (by rfl)

/-- C7: a month outside 1–11 (December in particular) makes `leap_year_doy`
abort with the "Month not found" message instead of returning a value. -/
theorem leap_year_doy_month_not_found :
    ∀ y m d : ℤ, m < 1 ∨ 11 < m →
      leap_year_doy y m d =
        .error (if y ∈ leap_yrs then "Month not found in leap_days."
                else "Month not found in cal_days.") := by
  intro y m d hm
  by_cases hy : y ∈ leap_yrs
  · rw [if_pos hy]
    unfold leap_year_doy
    rw [if_neg (not_not_intro hy), leap_days_outside m hm]
  · rw [if_neg hy]
    unfold leap_year_doy
    rw [if_pos hy, cal_days_outside m hm]

theorem leap_year_doy_month_not_found_witness :
    leap_year_doy 2021 12 25 =
      .error (if (2021 : ℤ) ∈ leap_yrs then "Month not found in leap_days."
              else "Month not found in cal_days.") :=
  leap_year_doy_month_not_found 2021 12 25 (by norm_num)

/-- C9 counterexample: starting from a working directory other than the
hard-coded `odl20lite/bin` directory, `retrieve_mass_density` does not
restore it: the directory after the call differs from the one before. -/
theorem retrieve_density_cwd_not_restored :
    retrieve_mass_density_cwd "/home/user".toList ≠ "/home/user".toList := by decide

/-- C9 amended: after `retrieve_mass_density` the working directory is
always the hard-coded `odl20lite/bin` directory, whatever it was before;
it equals the prior directory exactly when that directory was already
`odl20lite/bin`. -/
theorem retrieve_density_cwd_fixed_dir :
    ∀ cwd0 : List Char, retrieve_mass_density_cwd cwd0 = odl_bin_dir ∧
      (retrieve_mass_density_cwd cwd0 = cwd0 ↔ cwd0 = odl_bin_dir) := by
  intro cwd0
  refine ⟨rfl, ?_⟩
  unfold retrieve_mass_density_cwd chdir
  exact ⟨fun h => h.symm, fun h => h.symm⟩

/-- C10: below 100 km, `compute_acceleration` appends the altitude error but
does not return early: it stores the model density and accumulates the
drag acceleration exactly as it does at or above 100 km. -/
theorem compute_acceleration_low_alt_no_early_return :
    ∀ (k : ℚ) (altText : List Char) (rho : ℚ) (st st' : DragState),
      st.geodetic_alt < 100 → ¬ st'.geodetic_alt < 100 →
      compute_acceleration k altText rho st =
        ({ st with
            errors := st.errors ++ [low_alt_error altText],
            atmos_density := rho,
            total_a_ecef := st.total_a_ecef + k * rho * st.ecef_v * st.ecef_rso_vel },
         k * rho * st.ecef_v * st.ecef_rso_vel) ∧
      compute_acceleration k altText rho st' =
        ({ st' with
            atmos_density := rho,
            total_a_ecef := st'.total_a_ecef + k * rho * st'.ecef_v * st'.ecef_rso_vel },
         k * rho * st'.ecef_v * st'.ecef_rso_vel) := by
  intro k altText rho st st' h h'
  constructor
  · unfold compute_acceleration
    rw [if_pos h]
  · unfold compute_acceleration
    rw [if_neg h']

theorem compute_acceleration_low_alt_no_early_return_witness :
    compute_acceleration 1 [] 2 ⟨50, 3, 5, [], 0, 0⟩ =
      (⟨50, 3, 5, [low_alt_error []], 2, 0 + 1 * 2 * 3 * 5⟩, 1 * 2 * 3 * 5) ∧
    compute_acceleration 1 [] 2 ⟨200, 3, 5, [], 0, 0⟩ =
      (⟨200, 3, 5, [], 2, 0 + 1 * 2 * 3 * 5⟩, 1 * 2 * 3 * 5) :=
  compute_acceleration_low_alt_no_early_return 1 [] 2 ⟨50, 3, 5, [], 0, 0⟩
    ⟨200, 3, 5, [], 0, 0⟩ (by norm_num) (by norm_num)

/-- Length profile of a fixed-notation, precision-15 token: non-finite
renderings have at most 4 characters, finite ones at least 17. -/
theorem fixedFmt15_length (s : List Char) (h : FixedFmt15 s) :
    s.length ≤ 4 ∨ 17 ≤ s.length := by
  rcases h with ⟨sgn, intd, frac, hsgn, hintd, hfrac, rfl⟩ | rfl | rfl | rfl | rfl
  · right
    have h1 : 1 ≤ intd.length := List.length_pos.mpr hintd
    rcases hsgn with rfl | rfl <;>
      simp only [List.length_append, List.length_cons, List.length_nil, hfrac] <;> omega
  · left; decide
  · left; decide
  · left; decide
  · left; decide

/-- C8: for coordinate fields shaped like the fixed-notation precision-15
output the source produces, the three texts handed to the model all have
at most 8 characters, and any field longer than 8 characters is replaced
by its first 8 characters. -/
theorem msis_lla_field_truncation :
    ∀ la lo al : List Char, FixedFmt15 la → FixedFmt15 lo → FixedFmt15 al →
      ((msis_lla_coordinates la lo al).1.length ≤ 8 ∧
       (msis_lla_coordinates la lo al).2.1.length ≤ 8 ∧
       (msis_lla_coordinates la lo al).2.2.length ≤ 8) ∧
      (la.length > 8 → (msis_lla_coordinates la lo al).2.1 = la.take 8) ∧
      (lo.length > 8 → (msis_lla_coordinates la lo al).2.2 = lo.take 8) ∧
      (al.length > 8 → (msis_lla_coordinates la lo al).1 = al.take 8) := by
  intro la lo al hla hlo hal
  have Hla := fixedFmt15_length la hla
  have Hlo := fixedFmt15_length lo hlo
  have Hal := fixedFmt15_length al hal
  unfold msis_lla_coordinates
  dsimp only
  refine ⟨⟨?_, ?_, ?_⟩, ?_, ?_, ?_⟩
  · by_cases h : al.length > 9
    · rw [if_pos h, List.length_take]; omega
    · rw [if_neg h]; omega
  · by_cases h : la.length > 8
    · rw [if_pos h, List.length_take]; omega
    · rw [if_neg h]; omega
  · by_cases h : lo.length > 8
    · rw [if_pos h, List.length_take]; omega
    · rw [if_neg h]; omega
  · intro hl; rw [if_pos hl]
  · intro hl; rw [if_pos hl]
  · intro hl; rw [if_pos (by omega : al.length > 9)]

theorem msis_lla_field_truncation_witness :
    (((msis_lla_coordinates "45.123456789012345".toList "0.000000000000000".toList
        "nan".toList).1.length ≤ 8 ∧
      (msis_lla_coordinates "45.123456789012345".toList "0.000000000000000".toList
        "nan".toList).2.1.length ≤ 8 ∧
      (msis_lla_coordinates "45.123456789012345".toList "0.000000000000000".toList
        "nan".toList).2.2.length ≤ 8) ∧
     ("45.123456789012345".toList.length > 8 →
       (msis_lla_coordinates "45.123456789012345".toList "0.000000000000000".toList
        "nan".toList).2.1 = "45.123456789012345".toList.take 8) ∧
     ("0.000000000000000".toList.length > 8 →
       (msis_lla_coordinates "45.123456789012345".toList "0.000000000000000".toList
        "nan".toList).2.2 = "0.000000000000000".toList.take 8) ∧
     ("nan".toList.length > 8 →
       (msis_lla_coordinates "45.123456789012345".toList "0.000000000000000".toList
        "nan".toList).1 = "nan".toList.take 8)) :=
  msis_lla_field_truncation "45.123456789012345".toList "0.000000000000000".toList
    "nan".toList
    (Or.inl ⟨[], "45".toList, "123456789012345".toList, Or.inl rfl, by decide, by decide,
      by decide⟩)
    (Or.inl ⟨[], "0".toList, "000000000000000".toList, Or.inl rfl, by decide, by decide,
      by decide⟩)
    (Or.inr (Or.inr (Or.inr (Or.inl rfl))))

/-! ## `ap_value` lemmas -/

theorem ap_scan_foldl_no_match (key : List Char) (post : List (List Char))
    (hpost : ∀ x ∈ post, ¬ (key <:+: x ∧ x.take 6 = key)) (v : List Char) :
    post.foldl (ap_scan_step key) (some v) = some v := by
  induction post generalizing v with
  | nil => rfl
  | cons x xs ih =>
    have hx := hpost x (List.mem_cons_self x xs)
    simp only [List.foldl_cons, ap_scan_step, if_neg hx]
    exact ih (fun z hz => hpost z (List.mem_cons_of_mem _ hz)) v

theorem ap_scan_foldl_some (key : List Char) (pre : List (List Char))
    (hpre : ∀ x ∈ pre, (key <:+: x ∧ x.take 6 = key) → 31 ≤ x.length) :
    ∀ v : List Char, ∃ v', pre.foldl (ap_scan_step key) (some v) = some v' := by
  induction pre with
  | nil => exact fun v => ⟨v, rfl⟩
  | cons x xs ih =>
    intro v
    by_cases hx : key <:+: x ∧ x.take 6 = key
    · have hlen := hpre x (List.mem_cons_self x xs) hx
      simp only [List.foldl_cons, ap_scan_step, if_pos hx, if_pos hlen]
      exact ih (fun z hz h => hpre z (List.mem_cons_of_mem _ hz) h) _
    · simp only [List.foldl_cons, ap_scan_step, if_neg hx]
      exact ih (fun z hz h => hpre z (List.mem_cons_of_mem _ hz) h) v

/-- C5: when the last matching line of the Ap record file carries the
24-character section `f1 ++ … ++ f8` at characters [31,55), whose eight
3-character sub-fields parse as the integers `a1 … a8`, the returned Ap
value is the mean of the eight integers rounded half away from zero. -/
theorem ap_value_rounded_mean :
    ∀ (pre post : List (List Char)) (l key year month day f1 f2 f3 f4 f5 f6 f7 f8 : List Char)
      (a1 a2 a3 a4 a5 a6 a7 a8 : ℤ),
      ap_search_key year month day = some key →
      (∀ x ∈ pre, (key <:+: x ∧ x.take 6 = key) → 31 ≤ x.length) →
      (key <:+: l ∧ l.take 6 = key) →
      31 ≤ l.length →
      (∀ x ∈ post, ¬ (key <:+: x ∧ x.take 6 = key)) →
      (l.drop 31).take 24 = f1 ++ (f2 ++ (f3 ++ (f4 ++ (f5 ++ (f6 ++ (f7 ++ f8)))))) →
      f1.length = 3 → f2.length = 3 → f3.length = 3 → f4.length = 3 →
      f5.length = 3 → f6.length = 3 → f7.length = 3 → f8.length = 3 →
      stoi f1 = some a1 → stoi f2 = some a2 → stoi f3 = some a3 → stoi f4 = some a4 →
      stoi f5 = some a5 → stoi f6 = some a6 → stoi f7 = some a7 → stoi f8 = some a8 →
      ap_value (pre ++ l :: post) year month day =
        some (roundHalfAwayFromZero
          (((a1 + a2 + a3 + a4 + a5 + a6 + a7 + a8 : ℤ) : ℚ) / 8)) := by
  intro pre post l key year month day f1 f2 f3 f4 f5 f6 f7 f8 a1 a2 a3 a4 a5 a6 a7 a8
  intro hkey hpre hl hllen hpost hF hn1 hn2 hn3 hn4 hn5 hn6 hn7 hn8
  intro hi1 hi2 hi3 hi4 hi5 hi6 hi7 hi8
  have hscan : ap_scan key (pre ++ l :: post) = some ((l.drop 31).take 24) := by
    unfold ap_scan
    rw [List.foldl_append]
    obtain ⟨v', hv⟩ := ap_scan_foldl_some key pre hpre []
    rw [hv, List.foldl_cons]
    have hstep : ap_scan_step key (some v') l = some ((l.drop 31).take 24) := by
      simp only [ap_scan_step, if_pos hl, if_pos hllen]
    rw [hstep]
    exact ap_scan_foldl_no_match key post hpost _
  have hFlen : ((l.drop 31).take 24).length = 24 := by
    rw [hF]
    simp only [List.length_append, hn1, hn2, hn3, hn4, hn5, hn6, hn7, hn8]
  have hd3 : ((l.drop 31).take 24).drop 3 = f2 ++ (f3 ++ (f4 ++ (f5 ++ (f6 ++ (f7 ++ f8))))) := by
    rw [hF]; exact List.drop_left' hn1
  have hd6 : ((l.drop 31).take 24).drop 6 = f3 ++ (f4 ++ (f5 ++ (f6 ++ (f7 ++ f8)))) := by
    have h : (((l.drop 31).take 24).drop 3).drop 3 = ((l.drop 31).take 24).drop 6 :=
      List.drop_drop 3 3 _
    rw [← h, hd3]; exact List.drop_left' hn2
  have hd9 : ((l.drop 31).take 24).drop 9 = f4 ++ (f5 ++ (f6 ++ (f7 ++ f8))) := by
    have h : (((l.drop 31).take 24).drop 6).drop 3 = ((l.drop 31).take 24).drop 9 :=
      List.drop_drop 3 6 _
    rw [← h, hd6]; exact List.drop_left' hn3
  have hd12 : ((l.drop 31).take 24).drop 12 = f5 ++ (f6 ++ (f7 ++ f8)) := by
    have h : (((l.drop 31).take 24).drop 9).drop 3 = ((l.drop 31).take 24).drop 12 :=
      List.drop_drop 3 9 _
    rw [← h, hd9]; exact List.drop_left' hn4
  have hd15 : ((l.drop 31).take 24).drop 15 = f6 ++ (f7 ++ f8) := by
    have h : (((l.drop 31).take 24).drop 12).drop 3 = ((l.drop 31).take 24).drop 15 :=
      List.drop_drop 3 12 _
    rw [← h, hd12]; exact List.drop_left' hn5
  have hd18 : ((l.drop 31).take 24).drop 18 = f7 ++ f8 := by
    have h : (((l.drop 31).take 24).drop 15).drop 3 = ((l.drop 31).take 24).drop 18 :=
      List.drop_drop 3 15 _
    rw [← h, hd15]; exact List.drop_left' hn6
  have hd21 : ((l.drop 31).take 24).drop 21 = f8 := by
    have h : (((l.drop 31).take 24).drop 18).drop 3 = ((l.drop 31).take 24).drop 21 :=
      List.drop_drop 3 18 _
    rw [← h, hd18]; exact List.drop_left' hn7
  have hs0 : substrOpt ((l.drop 31).take 24) 0 3 = some f1 := by
    unfold substrOpt
    rw [if_pos (by omega), List.drop_zero, hF, List.take_left' hn1]
  have hs1 : substrOpt ((l.drop 31).take 24) 3 3 = some f2 := by
    unfold substrOpt
    rw [if_pos (by omega), hd3, List.take_left' hn2]
  have hs2 : substrOpt ((l.drop 31).take 24) 6 3 = some f3 := by
    unfold substrOpt
    rw [if_pos (by omega), hd6, List.take_left' hn3]
  have hs3 : substrOpt ((l.drop 31).take 24) 9 3 = some f4 := by
    unfold substrOpt
    rw [if_pos (by omega), hd9, List.take_left' hn4]
  have hs4 : substrOpt ((l.drop 31).take 24) 12 3 = some f5 := by
    unfold substrOpt
    rw [if_pos (by omega), hd12, List.take_left' hn5]
  have hs5 : substrOpt ((l.drop 31).take 24) 15 3 = some f6 := by
    unfold substrOpt
    rw [if_pos (by omega), hd15, List.take_left' hn6]
  have hs6 : substrOpt ((l.drop 31).take 24) 18 3 = some f7 := by
    unfold substrOpt
    rw [if_pos (by omega), hd18, List.take_left' hn7]
  have hs7 : substrOpt ((l.drop 31).take 24) 21 3 = some f8 := by
    unfold substrOpt
    rw [if_pos (by omega), hd21, ← hn8, List.take_length]
  have hr : List.range 8 = [0, 1, 2, 3, 4, 5, 6, 7] := rfl
  have hm1 : (List.range 8).mapM (fun i => substrOpt ((l.drop 31).take 24) (3 * i) 3)
      = some [f1, f2, f3, f4, f5, f6, f7, f8] := by
    rw [hr]
    simp [List.mapM, List.mapM.loop, hs0, hs1, hs2, hs3, hs4, hs5, hs6, hs7]
  have hm2 : ([f1, f2, f3, f4, f5, f6, f7, f8].mapM stoi)
      = some [a1, a2, a3, a4, a5, a6, a7, a8] := by
    simp [List.mapM, List.mapM.loop, hi1, hi2, hi3, hi4, hi5, hi6, hi7, hi8]
  simp only [ap_value, hkey, hscan, hm1, hm2, Option.bind_eq_bind, Option.some_bind,
    Option.pure_def, List.foldl_cons, List.foldl_nil, zero_add]

theorem ap_value_rounded_mean_witness :
    ap_value ["200315                         005010015020025030035040".toList]
      "2020".toList "3".toList "15".toList = some 23 := by
  have h := ap_value_rounded_mean [] []
    ("200315                         005010015020025030035040".toList)
    ("200315".toList) ("2020".toList) ("3".toList) ("15".toList)
    ("005".toList) ("010".toList) ("015".toList) ("020".toList)
    ("025".toList) ("030".toList) ("035".toList) ("040".toList)
    5 10 15 20 25 30 35 40
    (by decide) (by simp) (by decide) (by decide) (by simp)
    (by decide) (by decide) (by decide) (by decide) (by decide)
    (by decide) (by decide) (by decide) (by decide)
    (by decide) (by decide) (by decide) (by decide)
    (by decide) (by decide) (by decide) (by decide)
  exact h.trans (by norm_num [roundHalfAwayFromZero])

/-- C6 counterexample: the timestamp decomposition of the epoch
`"15/03/2020 12:30:45.000000 Z"` does not produce day-of-year 75: the
7-character month-plus-year token `"03/2020"` makes the source take
`substr(2,4) = "/202"` as the year text, whose `std::stoi` throws, so no
value is produced at all. -/
theorem msis_time_stamp_march_epoch_fails :
    (msis_time_stamp "15/03/2020 12:30:45.000000 Z".toList).map MsisStamp.day_of_year
      ≠ some 75 := by decide

/-- C6 amended: on the epoch `"15/03/2020 12:30:45.000000 Z"` the timestamp
decomposition fails (the year text comes out as `"/202"` and its integer
parse throws), while the day-of-year calculation itself on (2020, 3, 15)
— 2020 being in the fixed leap list — does give 60 + 15 = 75. -/
theorem msis_time_stamp_march_epoch_behavior :
    msis_time_stamp "15/03/2020 12:30:45.000000 Z".toList = none ∧
    leap_year_doy 2020 3 15 = .ok (75, 74, 2020) :=
  ⟨by decide, by rfl⟩

/-- C4 counterexample: with two lines matching the key, each holding exactly
five whitespace-separated fields, the values returned are the 4th and
5th fields of the FIRST matching line, not the last one: reading the
first line's fifth field reaches the end of the shared `line_stream`
buffer and sets its eof state, after which the second line is neither
appended nor extracted. -/
theorem msis_f107_last_match_fails :
    msis_f107 ["2020 100 J 150.0 151.0".toList, "2020 100 K 222.0 223.0".toList]
      "100".toList "2020".toList = ("150.0".toList, "151.0".toList) ∧
    (("150.0".toList, "151.0".toList) : List Char × List Char)
      ≠ ("222.0".toList, "223.0".toList) :=
  ⟨by decide, by decide⟩

/-! ## `msis_f107` stream lemmas -/

theorem f107_foldl_no_match (key : List Char) (pre : List (List Char))
    (hpre : ∀ x ∈ pre, ¬ key <:+: x) (st : F107St) :
    pre.foldl (f107_step key) st = st := by
  induction pre with
  | nil => rfl
  | cons x xs ih =>
    have hx := hpre x (List.mem_cons_self x xs)
    simp only [List.foldl_cons, f107_step, if_neg hx]
    exact ih (fun z hz => hpre z (List.mem_cons_of_mem _ hz))

theorem extractToken_bad (s : SStream) (cur : List Char)
    (h : s.fail = true ∨ s.eof = true) :
    extractToken s cur = ({ s with fail := true }, cur) := by
  unfold extractToken
  rw [if_pos (by rcases h with h | h <;> simp [h])]

theorem extract5_bad (s : SStream) (a1 a2 a3 a4 a5 : List Char) (h : s.fail = true) :
    extract5 s a1 a2 a3 a4 a5 = ({ s with fail := true }, a1, a2, a3, a4, a5) := by
  unfold extract5
  rw [extractToken_bad s a1 (Or.inl h)]
  dsimp only
  rw [extractToken_bad _ a2 (Or.inl rfl)]
  dsimp only
  rw [extractToken_bad _ a3 (Or.inl rfl)]
  dsimp only
  rw [extractToken_bad _ a4 (Or.inl rfl)]
  dsimp only
  rw [extractToken_bad _ a5 (Or.inl rfl)]

theorem f107_foldl_frozen (key : List Char) (post : List (List Char)) :
    ∀ st : F107St, st.stream.eof = true →
      (post.foldl (f107_step key) st).f107 = st.f107 ∧
      (post.foldl (f107_step key) st).f107a = st.f107a := by
  induction post with
  | nil => exact fun st _ => ⟨rfl, rfl⟩
  | cons x xs ih =>
    intro st heof
    have hstep : (f107_step key st x).stream.eof = true ∧
        (f107_step key st x).f107 = st.f107 ∧ (f107_step key st x).f107a = st.f107a := by
      unfold f107_step
      by_cases hx : key <:+: x
      · rw [if_pos hx]
        have hins : sinsert st.stream x = { st.stream with fail := true } := by
          unfold sinsert
          rw [if_pos (by simp [heof])]
        rw [hins, extract5_bad _ _ _ _ _ _ rfl]
        exact ⟨heof, rfl, rfl⟩
      · rw [if_neg hx]; exact ⟨heof, rfl, rfl⟩
    obtain ⟨he, hf, hfa⟩ := hstep
    have hrest := ih (f107_step key st x) he
    simp only [List.foldl_cons]
    exact ⟨hrest.1.trans hf, hrest.2.trans hfa⟩

theorem extractToken_run (w t r cur : List Char)
    (hw : ∀ c ∈ w, isSpace c = true) (ht : ∀ c ∈ t, isSpace c = false) (htn : t ≠ [])
    (hr : r = [] ∨ ∃ b r', r = b :: r' ∧ isSpace b = true) :
    extractToken ⟨w ++ (t ++ r), false, false⟩ cur = (⟨r, false, r.isEmpty⟩, t) := by
  have hnt : ∀ c ∈ t, (fun c => !isSpace c) c = true := fun c hc => by simp [ht c hc]
  have htw : (t ++ r).takeWhile (fun c => !isSpace c) = t := by
    rcases hr with rfl | ⟨b, r', rfl, hb⟩
    · rw [List.append_nil]; exact takeWhile_all_of _ t hnt
    · exact takeWhile_append_cons_of _ t b r' hnt (by simp [hb])
  have hdw2 : (t ++ r).dropWhile (fun c => !isSpace c) = r := by
    rcases hr with rfl | ⟨b, r', rfl, hb⟩
    · rw [List.append_nil]; exact dropWhile_all_of _ t hnt
    · exact dropWhile_append_cons_of _ t b r' hnt (by simp [hb])
  obtain ⟨c0, t', rfl⟩ := List.exists_cons_of_ne_nil htn
  have hc0 : isSpace c0 = false := ht c0 (List.mem_cons_self _ _)
  have hdw1 : (w ++ ((c0 :: t') ++ r)).dropWhile isSpace = (c0 :: t') ++ r := by
    rw [dropWhile_append_all_of isSpace w _ hw, List.cons_append]
    exact List.dropWhile_cons_of_neg (by simp [hc0])
  unfold extractToken
  dsimp only
  rw [if_neg (by simp), hdw1]
  rw [if_neg (by simp), htw, hdw2]

/-- Heads of a nonempty all-whitespace block prepended to anything. -/
theorem ws_head (w X : List Char) (hw : ∀ c ∈ w, isSpace c = true) (hn : w ≠ []) :
    ∃ b r', w ++ X = b :: r' ∧ isSpace b = true := by
  obtain ⟨b, w', rfl⟩ := List.exists_cons_of_ne_nil hn
  exact ⟨b, w' ++ X, by simp, hw b (List.mem_cons_self _ _)⟩

/-- C4 amended: the search key is the year text followed by 1/2/3 spaces
according to the 3/2/1-digit length of the previous-day text, followed
by the previous-day text; and when the first line containing that key
consists of exactly five whitespace-separated fields with no trailing
whitespace, the returned (F10.7, F10.7A) are the 4th and 5th fields of
that FIRST matching line — later matching lines are ignored, because
reading the fifth field to the end of the shared stream buffer sets its
eof state, which blocks every later insertion and extraction. -/
theorem msis_f107_first_complete_match :
    ∀ (pre post : List (List Char)) (l w0 t1 w1 t2 w2 t3 w3 t4 w4 t5 prev f10y : List Char),
      (∀ x ∈ pre, ¬ f107_search f10y prev <:+: x) →
      f107_search f10y prev <:+: l →
      l = w0 ++ (t1 ++ (w1 ++ (t2 ++ (w2 ++ (t3 ++ (w3 ++ (t4 ++ (w4 ++ t5)))))))) →
      (∀ c ∈ w0, isSpace c = true) →
      (∀ c ∈ w1, isSpace c = true) → w1 ≠ [] →
      (∀ c ∈ w2, isSpace c = true) → w2 ≠ [] →
      (∀ c ∈ w3, isSpace c = true) → w3 ≠ [] →
      (∀ c ∈ w4, isSpace c = true) → w4 ≠ [] →
      (∀ c ∈ t1, isSpace c = false) → t1 ≠ [] →
      (∀ c ∈ t2, isSpace c = false) → t2 ≠ [] →
      (∀ c ∈ t3, isSpace c = false) → t3 ≠ [] →
      (∀ c ∈ t4, isSpace c = false) → t4 ≠ [] →
      (∀ c ∈ t5, isSpace c = false) → t5 ≠ [] →
      msis_f107 (pre ++ l :: post) prev f10y = (t4, t5) := by
  intro pre post l w0 t1 w1 t2 w2 t3 w3 t4 w4 t5 prev f10y
  intro hpre hl hshape hw0 hw1 hw1n hw2 hw2n hw3 hw3n hw4 hw4n
  intro ht1 ht1n ht2 ht2n ht3 ht3n ht4 ht4n ht5 ht5n
  have e1 : extractToken ⟨l, false, false⟩ [] =
      (⟨w1 ++ (t2 ++ (w2 ++ (t3 ++ (w3 ++ (t4 ++ (w4 ++ t5)))))), false, false⟩, t1) := by
    rw [hshape,
      extractToken_run w0 t1 (w1 ++ (t2 ++ (w2 ++ (t3 ++ (w3 ++ (t4 ++ (w4 ++ t5))))))) []
        hw0 ht1 ht1n (Or.inr (ws_head w1 _ hw1 hw1n))]
    obtain ⟨b, r', he, _⟩ :=
      ws_head w1 (t2 ++ (w2 ++ (t3 ++ (w3 ++ (t4 ++ (w4 ++ t5)))))) hw1 hw1n
    rw [he]
    rfl
  have e2 : extractToken ⟨w1 ++ (t2 ++ (w2 ++ (t3 ++ (w3 ++ (t4 ++ (w4 ++ t5)))))),
      false, false⟩ [] = (⟨w2 ++ (t3 ++ (w3 ++ (t4 ++ (w4 ++ t5)))), false, false⟩, t2) := by
    rw [extractToken_run w1 t2 (w2 ++ (t3 ++ (w3 ++ (t4 ++ (w4 ++ t5))))) []
      hw1 ht2 ht2n (Or.inr (ws_head w2 _ hw2 hw2n))]
    obtain ⟨b, r', he, _⟩ := ws_head w2 (t3 ++ (w3 ++ (t4 ++ (w4 ++ t5)))) hw2 hw2n
    rw [he]
    rfl
  have e3 : extractToken ⟨w2 ++ (t3 ++ (w3 ++ (t4 ++ (w4 ++ t5)))), false, false⟩ [] =
      (⟨w3 ++ (t4 ++ (w4 ++ t5)), false, false⟩, t3) := by
    rw [extractToken_run w2 t3 (w3 ++ (t4 ++ (w4 ++ t5))) []
      hw2 ht3 ht3n (Or.inr (ws_head w3 _ hw3 hw3n))]
    obtain ⟨b, r', he, _⟩ := ws_head w3 (t4 ++ (w4 ++ t5)) hw3 hw3n
    rw [he]
    rfl
  have e4 : extractToken ⟨w3 ++ (t4 ++ (w4 ++ t5)), false, false⟩ [] =
      (⟨w4 ++ t5, false, false⟩, t4) := by
    rw [extractToken_run w3 t4 (w4 ++ t5) [] hw3 ht4 ht4n (Or.inr (ws_head w4 _ hw4 hw4n))]
    obtain ⟨b, r', he, _⟩ := ws_head w4 t5 hw4 hw4n
    rw [he]
    rfl
  have e5 : extractToken ⟨w4 ++ t5, false, false⟩ [] = (⟨[], false, true⟩, t5) := by
    have h := extractToken_run w4 t5 [] [] hw4 ht5 ht5n (Or.inl rfl)
    rw [List.append_nil] at h
    exact h
  have hstep : f107_step (f107_search f10y prev)
      (⟨⟨[], false, false⟩, [], [], [], [], []⟩ : F107St) l
      = ⟨⟨[], false, true⟩, t1, t2, t3, t4, t5⟩ := by
    unfold f107_step
    rw [if_pos hl]
    dsimp only
    have hins : sinsert (⟨[], false, false⟩ : SStream) l = ⟨l, false, false⟩ := by
      unfold sinsert
      rw [if_neg (by simp)]
      simp
    rw [hins]
    unfold extract5
    rw [e1]
    dsimp only
    rw [e2]
    dsimp only
    rw [e3]
    dsimp only
    rw [e4]
    dsimp only
    rw [e5]
  unfold msis_f107
  simp only [List.foldl_append, List.foldl_cons]
  rw [f107_foldl_no_match _ pre hpre, hstep]
  have hfr := f107_foldl_frozen (f107_search f10y prev) post
    ⟨⟨[], false, true⟩, t1, t2, t3, t4, t5⟩ rfl
  rw [hfr.1, hfr.2]

theorem msis_f107_first_complete_match_witness :
    msis_f107 ["Y   1 a b c".toList] "1".toList "Y".toList = ("b".toList, "c".toList) :=
  msis_f107_first_complete_match [] [] ("Y   1 a b c".toList) []
    ("Y".toList) ("   ".toList) ("1".toList) (" ".toList) ("a".toList) (" ".toList)
    ("b".toList) (" ".toList) ("c".toList) ("1".toList) ("Y".toList)
    (by simp) (by decide) (by decide)
    (by decide) (by decide) (by decide) (by decide) (by decide) (by decide) (by decide)
    (by decide) (by decide) (by decide) (by decide) (by decide) (by decide) (by decide)
    (by decide) (by decide) (by decide) (by decide) (by decide)

/-! ## Decimal rendering and parsing lemmas -/

theorem digitCharN_isDigit (d : ℕ) : isDigitCh (digitCharN d) = true := by
  unfold digitCharN
  split_ifs <;> decide

theorem charVal_digitCharN (d : ℕ) (h : d < 10) : charVal (digitCharN d) = d := by
  interval_cases d <;> decide

theorem natToCharsAux_all_digits :
    ∀ (fuel n : ℕ), ∀ c ∈ natToCharsAux fuel n, isDigitCh c = true := by
  intro fuel
  induction fuel with
  | zero => intro n c hc; simp [natToCharsAux] at hc
  | succ f ih =>
    intro n c hc
    by_cases hn : n = 0
    · simp [natToCharsAux, hn] at hc
    · simp only [natToCharsAux, if_neg hn, List.mem_append, List.mem_singleton] at hc
      rcases hc with hc | rfl
      · exact ih _ c hc
      · exact digitCharN_isDigit _

theorem digitsVal_append_digit (a : List Char) (c : Char) :
    digitsVal (a ++ [c]) = 10 * digitsVal a + charVal c := by
  unfold digitsVal
  rw [List.foldl_append]
  rfl

theorem natToCharsAux_val :
    ∀ (fuel n : ℕ), n < 10 ^ fuel → digitsVal (natToCharsAux fuel n) = n := by
  intro fuel
  induction fuel with
  | zero =>
    intro n h
    have hn : n = 0 := by simpa using h
    subst hn; rfl
  | succ f ih =>
    intro n h
    by_cases hn : n = 0
    · subst hn; rfl
    · simp only [natToCharsAux, if_neg hn]
      rw [digitsVal_append_digit,
        ih (n / 10) (Nat.div_lt_of_lt_mul (by rw [pow_succ] at h; omega)),
        charVal_digitCharN (n % 10) (Nat.mod_lt _ (by norm_num))]
      omega

theorem natToChars_all_digits (n : ℕ) : ∀ c ∈ natToChars n, isDigitCh c = true := by
  unfold natToChars
  by_cases hn : n = 0
  · rw [if_pos hn]
    intro c hc
    have : c = '0' := by simpa using hc
    subst this; decide
  · rw [if_neg hn]; exact natToCharsAux_all_digits _ _

theorem natToChars_val (n : ℕ) : digitsVal (natToChars n) = n := by
  unfold natToChars
  by_cases hn : n = 0
  · rw [if_pos hn, hn]; rfl
  · rw [if_neg hn]
    refine natToCharsAux_val (n + 1) n ?_
    have h1 : n < 2 ^ n := Nat.lt_two_pow n
    have h2 : 2 ^ n ≤ 10 ^ n := Nat.pow_le_pow_left (by norm_num) n
    have h3 : 10 ^ n ≤ 10 ^ (n + 1) := Nat.pow_le_pow_right (by norm_num) (by omega)
    omega

theorem natToChars_ne_nil (n : ℕ) : natToChars n ≠ [] := by
  unfold natToChars
  by_cases hn : n = 0
  · rw [if_pos hn]; simp
  · rw [if_neg hn]
    simp only [natToCharsAux, if_neg hn]
    simp

theorem stoiSigned_digits (l : List Char) (hd : ∀ c ∈ l, isDigitCh c = true) (hn : l ≠ []) :
    stoiSigned l = some ((digitsVal l : ℕ) : ℤ) := by
  obtain ⟨c, cs, rfl⟩ := List.exists_cons_of_ne_nil hn
  have hc : isDigitCh c = true := hd c (List.mem_cons_self _ _)
  have h1 : ¬ (c :: cs).take 1 = ['-'] := by
    intro h
    have hc' : c = '-' := by simpa using h
    rw [hc'] at hc
    exact absurd hc (by decide)
  have h2 : ¬ (c :: cs).take 1 = ['+'] := by
    intro h
    have hc' : c = '+' := by simpa using h
    rw [hc'] at hc
    exact absurd hc (by decide)
  unfold stoiSigned
  rw [if_neg h1, if_neg h2]
  unfold stoiDigits
  rw [takeWhile_all_of _ _ hd, if_neg (by simp)]
  rfl

theorem stoiSigned_intToChars (i : ℤ) : stoiSigned (intToChars i) = some i := by
  unfold intToChars
  by_cases hi : i < 0
  · rw [if_pos hi]
    unfold stoiSigned
    rw [if_pos (show ('-' :: natToChars i.natAbs).take 1 = ['-'] from rfl)]
    have hsd : stoiDigits (natToChars i.natAbs) = some (digitsVal (natToChars i.natAbs)) := by
      unfold stoiDigits
      rw [takeWhile_all_of _ _ (natToChars_all_digits _), if_neg (natToChars_ne_nil _)]
    rw [show ('-' :: natToChars i.natAbs).drop 1 = natToChars i.natAbs from rfl, hsd]
    rw [Option.map_some', natToChars_val, Int.ofNat_natAbs_of_nonpos (le_of_lt hi), neg_neg]
  · rw [if_neg hi]
    rw [stoiSigned_digits _ (natToChars_all_digits _) (natToChars_ne_nil _), natToChars_val]
    congr 1
    exact Int.natAbs_of_nonneg (by omega)

theorem expVal_intToChars (i : ℤ) : expVal (intToChars i) = i := by
  unfold expVal
  rw [stoiSigned_intToChars]
  rfl

theorem isSpace_isDigitCh_false (c : Char) (h : isSpace c = true) : isDigitCh c = false := by
  simp only [isSpace, Bool.or_eq_true, Bool.and_eq_true, decide_eq_true_eq] at h
  by_contra hcon
  rw [Bool.not_eq_false] at hcon
  simp only [isDigitCh, Bool.and_eq_true, decide_eq_true_eq] at hcon
  rcases h with h | ⟨h9, h13⟩ <;> omega

theorem parseMantissaPos_none_of_space_head (c : Char) (cs : List Char)
    (h : isSpace c = true) : parseMantissaPos (c :: cs) = none := by
  have hd : isDigitCh c = false := isSpace_isDigitCh_false c h
  have hdw : (c :: cs).dropWhile isDigitCh = c :: cs :=
    List.dropWhile_cons_of_neg (by simp [hd])
  have htw : (c :: cs).takeWhile isDigitCh = [] :=
    List.takeWhile_cons_of_neg (by simp [hd])
  unfold parseMantissaPos
  rw [hdw, htw]
  have hne : ¬ (c :: cs).take 1 = ['.'] := by
    intro hcon
    have hc' : c = '.' := by simpa using hcon
    rw [hc'] at h
    exact absurd h (by decide)
  rw [if_neg hne, if_pos rfl]

theorem parseMantissa_head (l : List Char) (q : ℚ) (r : List Char)
    (h : parseMantissa l = some (q, r)) : ∃ c cs, l = c :: cs ∧ isSpace c = false := by
  rcases l with _ | ⟨c, cs⟩
  · have hnil : parseMantissa ([] : List Char) = none := by decide
    rw [hnil] at h
    exact Option.noConfusion h
  · refine ⟨c, cs, rfl, ?_⟩
    by_contra hcon
    rw [Bool.not_eq_false] at hcon
    have h1 : ¬ (c :: cs).take 1 = ['-'] := by
      intro hc
      have hc' : c = '-' := by simpa using hc
      rw [hc'] at hcon
      exact absurd hcon (by decide)
    have h2 : ¬ (c :: cs).take 1 = ['+'] := by
      intro hc
      have hc' : c = '+' := by simpa using hc
      rw [hc'] at hcon
      exact absurd hcon (by decide)
    unfold parseMantissa at h
    rw [if_neg h1, if_neg h2, parseMantissaPos_none_of_space_head c cs hcon] at h
    exact Option.noConfusion h

theorem parseMantissaPos_extend (l : List Char) (q : ℚ) (c : Char) (t : List Char)
    (h : parseMantissaPos l = some (q, [])) (hc1 : isDigitCh c = false) (hc2 : c ≠ '.') :
    parseMantissaPos (l ++ c :: t) = some (q, c :: t) := by
  have hsplit : l.takeWhile isDigitCh ++ l.dropWhile isDigitCh = l :=
    List.takeWhile_append_dropWhile isDigitCh l
  have hD : ∀ x ∈ l.takeWhile isDigitCh, isDigitCh x = true :=
    fun x hx => List.mem_takeWhile_imp hx
  unfold parseMantissaPos at h
  by_cases hdot : (l.dropWhile isDigitCh).take 1 = ['.']
  · rw [if_pos hdot] at h
    by_cases hemp : l.takeWhile isDigitCh = [] ∧
        ((l.dropWhile isDigitCh).drop 1).takeWhile isDigitCh = []
    · rw [if_pos hemp] at h
      exact Option.noConfusion h
    · rw [if_neg hemp] at h
      simp only [Option.some.injEq, Prod.mk.injEq] at h
      obtain ⟨hq, hrest⟩ := h
      obtain ⟨d, R, hdR⟩ : ∃ d R, l.dropWhile isDigitCh = d :: R := by
        rcases hE : l.dropWhile isDigitCh with _ | ⟨d, R⟩
        · rw [hE] at hdot
          exact absurd hdot (by decide)
        · exact ⟨d, R, rfl⟩
      have hd' : d = '.' := by
        rw [hdR] at hdot
        simpa using hdot
      subst hd'
      rw [hdR] at hrest hq hemp
      rw [show ('.' :: R).drop 1 = R from rfl] at hrest hq hemp
      have hR : R.takeWhile isDigitCh = R := by
        have hx := List.takeWhile_append_dropWhile (p := isDigitCh) (l := R)
        rw [hrest, List.append_nil] at hx
        exact hx
      have hRd : ∀ x ∈ R, isDigitCh x = true := by
        intro x hx
        exact List.mem_takeWhile_imp (hR.symm ▸ hx)
      have happ : l ++ c :: t = l.takeWhile isDigitCh ++ '.' :: (R ++ c :: t) := by
        conv_lhs => rw [← hsplit, hdR]
        simp [List.append_assoc]
      rw [happ]
      have htw2 : (l.takeWhile isDigitCh ++ '.' :: (R ++ c :: t)).takeWhile isDigitCh
          = l.takeWhile isDigitCh := takeWhile_append_cons_of _ _ _ _ hD (by decide)
      have hdw2 : (l.takeWhile isDigitCh ++ '.' :: (R ++ c :: t)).dropWhile isDigitCh
          = '.' :: (R ++ c :: t) := dropWhile_append_cons_of _ _ _ _ hD (by decide)
      unfold parseMantissaPos
      rw [htw2, hdw2]
      rw [if_pos (show ('.' :: (R ++ c :: t)).take 1 = ['.'] from rfl)]
      rw [show ('.' :: (R ++ c :: t)).drop 1 = R ++ c :: t from rfl]
      have htwR : (R ++ c :: t).takeWhile isDigitCh = R :=
        takeWhile_append_cons_of _ _ _ _ hRd hc1
      have hdwR : (R ++ c :: t).dropWhile isDigitCh = c :: t :=
        dropWhile_append_cons_of _ _ _ _ hRd hc1
      rw [htwR, hdwR]
      rw [if_neg (by rw [hR] at hemp; exact hemp)]
      rw [hR] at hq
      rw [hq]
  · rw [if_neg hdot] at h
    by_cases hemp : l.takeWhile isDigitCh = []
    · rw [if_pos hemp] at h
      exact Option.noConfusion h
    · rw [if_neg hemp] at h
      simp only [Option.some.injEq, Prod.mk.injEq] at h
      obtain ⟨hq, hrest⟩ := h
      have happ : l ++ c :: t = l.takeWhile isDigitCh ++ c :: t := by
        conv_lhs => rw [← hsplit, hrest]
        simp
      rw [happ]
      unfold parseMantissaPos
      have htw2 : (l.takeWhile isDigitCh ++ c :: t).takeWhile isDigitCh
          = l.takeWhile isDigitCh := takeWhile_append_cons_of _ _ _ _ hD hc1
      have hdw2 : (l.takeWhile isDigitCh ++ c :: t).dropWhile isDigitCh = c :: t :=
        dropWhile_append_cons_of _ _ _ _ hD hc1
      rw [htw2, hdw2]
      rw [if_neg (show ¬ (c :: t).take 1 = ['.'] by
        intro hcon
        exact hc2 (by simpa using hcon))]
      rw [if_neg hemp, hq]

theorem parseMantissa_extend (l : List Char) (q : ℚ) (c : Char) (t : List Char)
    (h : parseMantissa l = some (q, [])) (hc1 : isDigitCh c = false) (hc2 : c ≠ '.') :
    parseMantissa (l ++ c :: t) = some (q, c :: t) := by
  obtain ⟨c0, cs, rfl, hc0⟩ := parseMantissa_head l q [] h
  unfold parseMantissa at h ⊢
  by_cases h1 : (c0 :: cs).take 1 = ['-']
  · have hc0' : c0 = '-' := by simpa using h1
    subst hc0'
    rw [if_pos h1] at h
    rw [if_pos (show (('-' :: cs) ++ c :: t).take 1 = ['-'] from rfl)]
    obtain ⟨p, hp, hpe⟩ := Option.map_eq_some'.mp h
    rcases p with ⟨p1, p2⟩
    simp only [Prod.mk.injEq] at hpe
    obtain ⟨hpq, hpr⟩ := hpe
    subst hpr
    rw [show (('-' :: cs) ++ c :: t).drop 1 = cs ++ c :: t from rfl,
      parseMantissaPos_extend cs p1 c t hp hc1 hc2]
    rw [Option.map_some', hpq]
  · by_cases h2 : (c0 :: cs).take 1 = ['+']
    · have hc0' : c0 = '+' := by simpa using h2
      subst hc0'
      rw [if_neg h1, if_pos h2] at h
      rw [if_neg (show ¬ (('+' :: cs) ++ c :: t).take 1 = ['-'] from h1),
        if_pos (show (('+' :: cs) ++ c :: t).take 1 = ['+'] from h2)]
      rw [show (('+' :: cs) ++ c :: t).drop 1 = cs ++ c :: t from rfl]
      exact parseMantissaPos_extend cs q c t h hc1 hc2
    · rw [if_neg h1, if_neg h2] at h
      rw [if_neg (show ¬ ((c0 :: cs) ++ c :: t).take 1 = ['-'] from h1),
        if_neg (show ¬ ((c0 :: cs) ++ c :: t).take 1 = ['+'] from h2)]
      exact parseMantissaPos_extend (c0 :: cs) q c t h hc1 hc2

theorem stod_mantissa_exp (m : List Char) (q : ℚ) (j : ℤ)
    (hm : parseMantissa m = some (q, [])) :
    stod (m ++ 'E' :: intToChars j) = some (q * (10 : ℚ) ^ j) := by
  obtain ⟨c0, cs, rfl, hc0⟩ := parseMantissa_head m q [] hm
  have hdw : ((c0 :: cs) ++ 'E' :: intToChars j).dropWhile isSpace
      = (c0 :: cs) ++ 'E' :: intToChars j := by
    rw [List.cons_append]
    exact List.dropWhile_cons_of_neg (by simp [hc0])
  have hext := parseMantissa_extend (c0 :: cs) q 'E' (intToChars j) hm (by decide) (by decide)
  unfold stod
  rw [hdw, hext]
  dsimp only
  rw [if_pos (Or.inr (show ('E' :: intToChars j).take 1 = ['E'] from rfl))]
  rw [show ('E' :: intToChars j).drop 1 = intToChars j from rfl, expVal_intToChars]

theorem parseMantissa_1234567 :
    parseMantissa ("1.234567".toList) =
      some ((digitsVal ("1".toList) : ℚ)
        + (digitsVal ("234567".toList) : ℚ) / ((10 ^ ("234567".toList).length : ℕ) : ℚ), []) := by
  unfold parseMantissa
  rw [if_neg (by decide), if_neg (by decide)]
  unfold parseMantissaPos
  rw [show "1.234567".toList.dropWhile isDigitCh = '.' :: "234567".toList from by decide,
    show "1.234567".toList.takeWhile isDigitCh = "1".toList from by decide]
  rw [if_pos (show ('.' :: "234567".toList).take 1 = ['.'] from rfl)]
  rw [show ('.' :: "234567".toList).drop 1 = "234567".toList from rfl]
  rw [show "234567".toList.takeWhile isDigitCh = "234567".toList from by decide,
    show "234567".toList.dropWhile isDigitCh = ([] : List Char) from by decide]
  rw [if_neg (by decide)]

/-- C1 counterexample: on the raw model text `"1.234e-11"` the character at
the expected exponent-marker index 8 is `'1'`, not `'e'`, so the source
substitutes the sentinel 1.000e-13 instead of producing 1.234e-8. -/
theorem density_raw_1234e11_yields_sentinel :
    retrieve_mass_density_normalize "1.234e-11".toList = some (1 / 10 ^ 13) ∧
    some ((1 : ℚ) / 10 ^ 13) ≠ some ((1234 : ℚ) / 10 ^ 11) := by
  constructor
  · unfold retrieve_mass_density_normalize
    rw [if_neg (by decide), if_neg (by decide), if_pos (by decide)]
  · intro hcon
    simp only [Option.some.injEq] at hcon
    norm_num at hcon

/-- C1 amended: for every raw model text of the form `m ++ 'e' :: es` whose
mantissa `m` has exactly 8 characters — putting the `'e'` at the expected
marker index 8 — contains no `'e'` and parses as a decimal, and whose
following up-to-3-character exponent field parses as the integer `k`, the
normalizer splits at the `'e'`, adds 3 to `k` and returns
mantissa · 10^(k+3).  Raw `"inf"` yields the sentinel 1.000e-13; raw
`"1.234e-11"` has `'1'` at index 8 and also yields the sentinel; raw
`"1.234567e-11"` yields 1.234567e-8. -/
theorem density_normalize_exponent_shift :
    (∀ (m es : List Char) (q : ℚ) (k : ℤ),
      parseMantissa m = some (q, []) → m.length = 8 → 'e' ∉ m →
      stoi (es.take 3) = some k →
      retrieve_mass_density_normalize (m ++ 'e' :: es) = some (q * (10 : ℚ) ^ (k + 3))) ∧
    retrieve_mass_density_normalize "inf".toList = some (1 / 10 ^ 13) ∧
    retrieve_mass_density_normalize "1.234e-11".toList = some (1 / 10 ^ 13) ∧
    retrieve_mass_density_normalize "1.234567e-11".toList = some ((1234567 : ℚ) / 10 ^ 14) := by
  have main : ∀ (m es : List Char) (q : ℚ) (k : ℤ),
      parseMantissa m = some (q, []) → m.length = 8 → 'e' ∉ m →
      stoi (es.take 3) = some k →
      retrieve_mass_density_normalize (m ++ 'e' :: es) = some (q * (10 : ℚ) ^ (k + 3)) := by
    intro m es q k hm hlen hne hk
    have hni : m ++ 'e' :: es ≠ "inf".toList := by
      intro hcon
      have hlc := congrArg List.length hcon
      simp only [List.length_append, List.length_cons, hlen,
        show "inf".toList.length = 3 from rfl] at hlc
      omega
    have hlen8 : ¬ (m ++ 'e' :: es).length < 8 := by
      simp only [List.length_append, hlen]
      omega
    have hdrop8 : (m ++ 'e' :: es).drop 8 = 'e' :: es := by
      rw [← hlen]
      exact List.drop_left m ('e' :: es)
    have hguard : ¬ ((m ++ 'e' :: es).drop 8).take 1 ≠ ['e'] := by
      rw [hdrop8]
      simp
    have hm_ne : ∀ c ∈ m, (fun c => c == 'e') c = false := by
      intro c hc
      simp only [beq_eq_false_iff_ne, ne_eq]
      exact fun hce => hne (hce ▸ hc)
    have hfind : (m ++ 'e' :: es).findIdx (fun c => c == 'e') = 8 := by
      rw [findIdx_append_cons_of _ m 'e' es hm_ne (by simp), hlen]
    have hdrop9 : (m ++ 'e' :: es).drop
        ((m ++ 'e' :: es).findIdx (fun c => c == 'e') + 1) = es := by
      rw [hfind]
      have hdd := List.drop_drop 1 8 (m ++ 'e' :: es)
      rw [show (8 + 1 : ℕ) = 9 from rfl] at hdd
      rw [show (8 + 1 : ℕ) = 9 from rfl, ← hdd, hdrop8]
      rfl
    have htake : (m ++ 'e' :: es).take ((m ++ 'e' :: es).findIdx (fun c => c == 'e')) = m := by
      rw [hfind, ← hlen]
      exact List.take_left m _
    unfold retrieve_mass_density_normalize
    rw [if_neg hni, if_neg hlen8, if_neg hguard, hdrop9, hk]
    dsimp only
    rw [htake]
    exact stod_mantissa_exp m q (k + 3) hm
  refine ⟨main, ?_, ?_, ?_⟩
  · unfold retrieve_mass_density_normalize
    rw [if_pos rfl]
  · unfold retrieve_mass_density_normalize
    rw [if_neg (by decide), if_neg (by decide), if_pos (by decide)]
  · have h := main ("1.234567".toList) ("-11".toList) _ (-11)
      parseMantissa_1234567 (by decide) (by decide) (by decide)
    rw [show "1.234567e-11".toList = "1.234567".toList ++ 'e' :: "-11".toList from by decide, h]
    rw [show digitsVal ("1".toList) = 1 from by decide,
      show digitsVal ("234567".toList) = 234567 from by decide,
      show ("234567".toList).length = 6 from by decide]
    norm_num

theorem density_normalize_exponent_shift_witness :
    retrieve_mass_density_normalize ("1.234567".toList ++ 'e' :: "-11".toList)
      = some (((digitsVal ("1".toList) : ℚ)
          + (digitsVal ("234567".toList) : ℚ) / ((10 ^ ("234567".toList).length : ℕ) : ℚ))
        * (10 : ℚ) ^ ((-11 : ℤ) + 3)) :=
  density_normalize_exponent_shift.1 ("1.234567".toList) ("-11".toList) _ (-11)
    parseMantissa_1234567 (by decide) (by decide) (by decide)
